import Mathlib

/-!
Shallow embedding of the `ern-bundle-store` server core
(`src/BundleStoreDb.ts` and `src/BundleStoreServer.ts`) and proofs about
its metadata store, retention/eviction, asset-dedup and symbolication
logic.

Modelling conventions:
* JavaScript objects used as string-keyed maps (`db.stores`, `db.assets`)
  are modelled as insertion-ordered association lists; property read,
  property assignment and `delete` are `objGet`, `objSet`, `objDel`.
* `fs.writeFileSync(dbPath, JSON.stringify(this.db))` is modelled by
  storing the written document (as a parsed `Db` value) in the `disk`
  field of `DbState`; `JSON.stringify` is a deterministic function of the
  ordered document, so equality of the `Db` values is equivalent to
  byte-identical file contents.
* Methods that can `throw` return `Except String`; mutating methods of
  `BundleStoreDb` additionally thread the `DbState`, mirroring the
  statement order of the source (all existence checks happen before any
  mutation in the source, and the embedding keeps that order).
* `uuidv4()` results are taken as explicit arguments (an oracle for the
  random generator).
-/

namespace BundleStore

/-- Type `Platform` from `types/index.d.ts`: `"android" | "ios"`. -/
inductive Platform where
  | android
  | ios
deriving DecidableEq, Repr

/-- String rendering of a platform tag, as it appears in messages. -/
def platformToString : Platform → String
  | Platform.android => "android"
  | Platform.ios => "ios"

/-- Record `Bundle` from `types/index.d.ts`. -/
structure Bundle where
  id : String
  platform : Platform
  sourceMap : String
  timestamp : Int
deriving DecidableEq, Repr

/-- Record `Store` from `types/index.d.ts`. -/
structure Store where
  accessKey : String
  bundles : List Bundle
  id : String
deriving DecidableEq, Repr

/-- Record `Db` from `types/index.d.ts`: `assets` is a string-keyed map
whose values are empty placeholder objects (we keep the ordered key
list), `stores` is a string-keyed map of `Store` records (we keep the
ordered association list). -/
structure Db where
  assets : List String
  stores : List (String × Store)
deriving DecidableEq, Repr

/-- JavaScript property read `m[k]` on an object modelled as an ordered
association list. -/
def objGet : List (String × Store) → String → Option Store
  | [], _ => none
  | (k', v) :: rest, k => if k' = k then some v else objGet rest k

/-- JavaScript property assignment `m[k] = v`: replaces the value of an
existing key in place, otherwise appends the key at the end (JS object
key insertion order). -/
def objSet : List (String × Store) → String → Store → List (String × Store)
  | [], k, v => [(k, v)]
  | (k', v') :: rest, k, v =>
    if k' = k then (k', v) :: rest else (k', v') :: objSet rest k v

/-- JavaScript `delete m[k]`. -/
def objDel : List (String × Store) → String → List (String × Store)
  | [], _ => []
  | (k', v') :: rest, k => if k' = k then rest else (k', v') :: objDel rest k

/-- In-memory database plus the content of the backing document at
`dbPath` (the last `JSON.stringify(this.db)` written by `write()`),
kept as a parsed `Db` value. -/
structure DbState where
  db : Db
  disk : Db
deriving DecidableEq, Repr

/-- Method `BundleStoreDb.write`: `fs.writeFileSync(this.dbPath, JSON.stringify(this.db))`. -/
def DbState.write (s : DbState) : DbState :=
  { s with disk := s.db }

/-- Error message of `throwIfStoreDoesNotExist`. -/
def storeNotExistMsg (storeId : String) : String :=
  "Store id " ++ storeId ++ " does not exist in database."

/-- Error message of `throwIfStoreExist`. -/
def storeExistMsg (storeId : String) : String :=
  "Store id " ++ storeId ++ " already exist in database."

/-- Error message of `getBundle` when the bundle is absent. -/
def bundleNotExistMsg (bundleId storeId : String) : String :=
  "Bundle " ++ bundleId ++ " does not exist in store " ++ storeId

/-- Error message of `getLatestBundle` when no bundle matches. -/
def noBundleMsg (storeId : String) (platform : Platform) : String :=
  "No bundle in store " ++ storeId ++ " for " ++ platformToString platform ++ " platform"

/-- Method `BundleStoreDb.hasStore`. -/
def hasStore (db : Db) (storeId : String) : Bool :=
  (objGet db.stores storeId).isSome

/-- Method `BundleStoreDb.isStoreEmpty`: after `throwIfStoreDoesNotExist`,
`bundles.length === 0 ? true : platform ? !_.some(bundles, platform match) : false`. -/
def isStoreEmpty (db : Db) (platform : Option Platform) (storeId : String) :
    Except String Bool :=
  match objGet db.stores storeId with
  | none => Except.error (storeNotExistMsg storeId)
  | some store =>
    Except.ok
      (if store.bundles.length = 0 then true
       else
         match platform with
         | some p => !(store.bundles.any (fun b => decide (b.platform = p)))
         | none => false)

/-- Method `BundleStoreDb.hasBundle`. -/
def hasBundle (db : Db) (bundleId storeId : String) : Except String Bool :=
  match objGet db.stores storeId with
  | none => Except.error (storeNotExistMsg storeId)
  | some store =>
    Except.ok (store.bundles.any (fun b => decide (b.id = bundleId)))

/-- Method `BundleStoreDb.getBundle`: `_.find` by bundle id, throwing when absent. -/
def getBundle (db : Db) (bundleId storeId : String) : Except String Bundle :=
  match objGet db.stores storeId with
  | none => Except.error (storeNotExistMsg storeId)
  | some store =>
    match store.bundles.find? (fun b => decide (b.id = bundleId)) with
    | none => Except.error (bundleNotExistMsg bundleId storeId)
    | some b => Except.ok b

/-- Method `BundleStoreDb.getLatestBundle`: store-existence check, `isStoreEmpty`
guard, then `_.last(_.filter(bundles, platform match))`.  `_.last` of an
empty array yields `undefined`; that branch is unreachable behind the
`isStoreEmpty` guard and is embedded as an error. -/
def getLatestBundle (db : Db) (platform : Platform) (storeId : String) :
    Except String Bundle :=
  match objGet db.stores storeId with
  | none => Except.error (storeNotExistMsg storeId)
  | some store =>
    match isStoreEmpty db (some platform) storeId with
    | Except.error e => Except.error e
    | Except.ok true => Except.error (noBundleMsg storeId platform)
    | Except.ok false =>
      match (store.bundles.filter (fun b => decide (b.platform = platform))).getLast? with
      | none => Except.error "undefined"
      | some b => Except.ok b

/-- Method `BundleStoreDb.addBundle`: existence check, push at the tail, `write()`. -/
def addBundle (s : DbState) (bundle : Bundle) (storeId : String) :
    DbState × Except String Unit :=
  match objGet s.db.stores storeId with
  | none => (s, Except.error (storeNotExistMsg storeId))
  | some store =>
    let db' : Db :=
      { s.db with
        stores := objSet s.db.stores storeId { store with bundles := store.bundles ++ [bundle] } }
    (DbState.write { s with db := db' }, Except.ok ())

/-- Method `BundleStoreDb.delBundle`: existence checks (store, then bundle via
`getBundle`), then `_.remove` of every bundle with the matching id,
`write()`, and return of the removed record. -/
def delBundle (s : DbState) (bundleId storeId : String) :
    DbState × Except String Bundle :=
  match objGet s.db.stores storeId with
  | none => (s, Except.error (storeNotExistMsg storeId))
  | some store =>
    match store.bundles.find? (fun b => decide (b.id = bundleId)) with
    | none => (s, Except.error (bundleNotExistMsg bundleId storeId))
    | some bundle =>
      let db' : Db :=
        { s.db with
          stores := objSet s.db.stores storeId
            { store with bundles := store.bundles.filter (fun b => !decide (b.id = bundleId)) } }
      (DbState.write { s with db := db' }, Except.ok bundle)

/-- Method `BundleStoreDb.createStore`: duplicate check, fresh record with a
`uuidv4()` access key (passed as the oracle argument `newAccessKey`),
assignment, `write()`. -/
def createStore (s : DbState) (storeId newAccessKey : String) :
    DbState × Except String Store :=
  if hasStore s.db storeId then (s, Except.error (storeExistMsg storeId))
  else
    let store : Store := { accessKey := newAccessKey, bundles := [], id := storeId }
    let db' : Db := { s.db with stores := objSet s.db.stores storeId store }
    (DbState.write { s with db := db' }, Except.ok store)

/-- Method `BundleStoreDb.delStore`: existence check, `delete`, `write()`, return
of the removed record. -/
def delStore (s : DbState) (storeId : String) : DbState × Except String Store :=
  match objGet s.db.stores storeId with
  | none => (s, Except.error (storeNotExistMsg storeId))
  | some store =>
    let db' : Db := { s.db with stores := objDel s.db.stores storeId }
    (DbState.write { s with db := db' }, Except.ok store)

/-- Method `BundleStoreDb.createAssets`: builds `createdAssets` from the input
list (duplicate keys collapse), `Object.assign`s it into `db.assets`
(existing keys keep their position, new keys are appended in first-seen
order) and `write()`s once. -/
def createAssets (s : DbState) (assets : List String) :
    DbState × Except String Unit :=
  let db' : Db :=
    { s.db with
      assets := assets.foldl (fun acc a => if acc.contains a then acc else acc ++ [a]) s.db.assets }
  (DbState.write { s with db := db' }, Except.ok ())

/-- Lodash `_.difference(l, excl)`: the elements of `l`, in order and with
multiplicity, that are not members of `excl`. -/
def lodashDifference (l excl : List String) : List String :=
  l.filter (fun x => !excl.contains x)

/-- The `POST /assets/delta` handler body: reads `assets` from the request
body and answers `_.difference(assets, Object.keys(this.db.getAssets()))`
without mutating anything. -/
def postAssetsDelta (s : DbState) (assets : List String) :
    DbState × List String :=
  (s, lodashDifference assets s.db.assets)

/-- Blob files on disk.  `getPathToBundle` joins the bundle blob root with
the identifier and `getPathToSourceMap` joins the symbol-map root with the
identifier; the two roots are distinct directories, so the two kinds of
paths never collide and are embedded as the two constructors. -/
inductive BlobPath where
  | bundle (id : String)
  | sourceMap (id : String)
deriving DecidableEq, Repr

/-- Method `BundleStoreServer.getPathToBundle`. -/
def getPathToBundle (bundleId : String) : BlobPath :=
  BlobPath.bundle bundleId

/-- Method `BundleStoreServer.getPathToSourceMap`. -/
def getPathToSourceMap (sourceMap : String) : BlobPath :=
  BlobPath.sourceMap sourceMap

/-- Server state: the metadata store plus the set of blob files present
on disk (bundle blobs and symbol-map blobs), as a membership list. -/
structure ServerState where
  dbState : DbState
  files : List BlobPath
deriving DecidableEq, Repr

/-- Effect of `shell.rm(p1, p2)` on the blob file set. -/
def shellRm (files : List BlobPath) (p1 p2 : BlobPath) : List BlobPath :=
  files.filter (fun p => !(decide (p = p1) || decide (p = p2)))

/-- The `maxBundles` part of `BundleStoreServer.normalizeUserConfig`:
`config.maxBundles || -1`.  An absent value and the (falsy) value `0`
both normalize to `-1`. -/
def normalizeMaxBundles (maxBundles : Option Int) : Int :=
  match maxBundles with
  | none => -1
  | some n => if n = 0 then -1 else n

/-- Method `BundleStoreServer.addBundleToStore`: when `maxBundles !== -1` and the
store already holds at least `maxBundles` bundles, remove the blob and
symbol-map files of the bundle at index 0 and delete its metadata record,
then append the new bundle record.  `store.bundles[0]` on an empty array
is `undefined` in the source, so reading `.id` from it is a runtime
`TypeError`, embedded as an error.  The `store` argument of the source is
the live record of `db.stores`, so it is read through `objGet` here. -/
def addBundleToStore (maxBundles : Int) (st : ServerState) (storeId : String)
    (bundle : Bundle) : Except String ServerState :=
  match objGet st.dbState.db.stores storeId with
  | none => Except.error (storeNotExistMsg storeId)
  | some store =>
    match
      (if maxBundles ≠ -1 ∧ maxBundles ≤ (store.bundles.length : Int) then
        match store.bundles with
        | [] => Except.error "TypeError: cannot read id of undefined"
        | oldest :: _ =>
          match delBundle st.dbState oldest.id storeId with
          | (s', Except.ok _) =>
            Except.ok
              { dbState := s',
                files := shellRm st.files (getPathToBundle oldest.id)
                  (getPathToSourceMap oldest.sourceMap) }
          | (_, Except.error e) => Except.error e
      else Except.ok st : Except String ServerState)
    with
    | Except.error e => Except.error e
    | Except.ok st1 =>
      match addBundle st1.dbState bundle storeId with
      | (s2, Except.ok _) => Except.ok { st1 with dbState := s2 }
      | (_, Except.error e) => Except.error e

/-- One `POST /bundles/:storeId/:platform` ingestion after the middleware
checks: multer persists the uploaded bundle and symbol-map blobs under the
freshly generated identifiers (recorded in `bundle`), then the handler
calls `addBundleToStore`. -/
def ingestBundle (maxBundles : Int) (st : ServerState) (storeId : String)
    (bundle : Bundle) : Except String ServerState :=
  addBundleToStore maxBundles
    { st with
      files := st.files ++ [getPathToBundle bundle.id, getPathToSourceMap bundle.sourceMap] }
    storeId bundle

/-- A sequence of ingestions into one namespace, processed one request at
a time (the server handles requests sequentially). -/
def ingestAll (maxBundles : Int) (storeId : String) :
    ServerState → List Bundle → Except String ServerState
  | st, [] => Except.ok st
  | st, b :: rest =>
    match ingestBundle maxBundles st storeId b with
    | Except.error e => Except.error e
    | Except.ok st' => ingestAll maxBundles storeId st' rest

/-- JavaScript `s.startsWith(p)` on JavaScript strings. -/
def jsStartsWith (s p : String) : Bool :=
  p.toList.isPrefixOf s.toList

/-- Record `StackFrame` from `types/index.d.ts` (`arguments?: any[]` is kept as
an optional list of opaque strings). -/
structure StackFrame where
  arguments : Option (List String)
  column : Option Int
  file : Option String
  lineNumber : Option Int
  methodName : String
deriving DecidableEq, Repr

/-- Result of `SourceMapConsumer.originalPositionFor` (the fields the
server reads; each can be `null`). -/
structure OriginalPosition where
  source : Option String
  line : Option Int
  column : Option Int
deriving DecidableEq, Repr

/-- JavaScript truthiness of an optional number (`NaN` is not modelled):
`undefined` and `0` are falsy. -/
def jsTruthyNum : Option Int → Bool
  | none => false
  | some n => decide (n ≠ 0)

/-- The per-frame transformation inside `BundleStoreServer.symbolicate`.
The `SourceMapConsumer` built from the symbol map (external `source-map`
package) is abstracted as the lookup `consumer line column`.  The source
condition is `frame.file && frame.file.startsWith("http") && frame.column
&& frame.lineNumber`. -/
def symbolicateFrame (consumer : Int → Int → OriginalPosition)
    (frame : StackFrame) : StackFrame :=
  if ((match frame.file with
       | some f => jsStartsWith f "http"
       | none => false)
      && jsTruthyNum frame.column && jsTruthyNum frame.lineNumber) then
    { arguments := frame.arguments,
      column := (consumer (frame.lineNumber.getD 0) (frame.column.getD 0)).column,
      file := (consumer (frame.lineNumber.getD 0) (frame.column.getD 0)).source,
      lineNumber := (consumer (frame.lineNumber.getD 0) (frame.column.getD 0)).line,
      methodName := frame.methodName }
  else frame

/-- Method `BundleStoreServer.symbolicate`: `stack.map` of the per-frame
transformation. -/
def symbolicate (consumer : Int → Int → OriginalPosition)
    (stack : List StackFrame) : List StackFrame :=
  stack.map (symbolicateFrame consumer)

/-- The `_.find(stack, (frame) => frame.file.startsWith("http")).file`
step of the `POST /symbolicate` handler.  The predicate itself throws a
`TypeError` on a frame without a `file` field, and reading `.file` of the
`undefined` returned by `_.find` when no frame matches also throws. -/
def findFirstHttpFile : List StackFrame → Except String String
  | [] => Except.error "TypeError: cannot read file of undefined"
  | f :: rest =>
    match f.file with
    | none => Except.error "TypeError: cannot read startsWith of undefined"
    | some u => if jsStartsWith u "http" then Except.ok u else findFirstHttpFile rest

/-- Result of `extractSegmentsFromBundleUrl`. -/
structure BundleRef where
  bundleId : String
  platform : String
  storeId : String
deriving DecidableEq, Repr

/-- Strips an expected literal character sequence from the front of the
input, if present. -/
def dropLiteral : List Char → List Char → Option (List Char)
  | [], cs => some cs
  | _ :: _, [] => none
  | p :: ps, c :: cs => if p = c then dropLiteral ps cs else none

/-- Tries the regex `bundles\/([^\/]+)\/([^\/]+)\/([^\/]+)\/` anchored at
the start of the character list: the literal `bundles/`, then three
non-empty slash-free segments, each closed by a `/`. -/
def matchSegsAt (cs : List Char) : Option (String × String × String) :=
  match dropLiteral ("bundles/".toList) cs with
  | none => none
  | some r0 =>
    match r0.takeWhile (fun c => c ≠ '/'), r0.dropWhile (fun c => c ≠ '/') with
    | [], _ => none
    | s1, '/' :: r1 =>
      match r1.takeWhile (fun c => c ≠ '/'), r1.dropWhile (fun c => c ≠ '/') with
      | [], _ => none
      | s2, '/' :: r2 =>
        match r2.takeWhile (fun c => c ≠ '/'), r2.dropWhile (fun c => c ≠ '/') with
        | [], _ => none
        | s3, '/' :: _ => some (⟨s1⟩, ⟨s2⟩, ⟨s3⟩)
        | _, _ => none
      | _, _ => none
    | _, _ => none

/-- Leftmost regex match: try `matchSegsAt` at every start position, in
order. -/
def scanSegments : List Char → Option (String × String × String)
  | [] => none
  | c :: cs =>
    match matchSegsAt (c :: cs) with
    | some r => some r
    | none => scanSegments cs

/-- Method `BundleStoreServer.extractSegmentsFromBundleUrl`: first match of the
regex `bundles\/([^\/]+)\/([^\/]+)\/([^\/]+)\/` in the url, throwing when
it matches nowhere; the three groups are store id, platform and bundle
id. -/
def extractSegmentsFromBundleUrl (bundleUrl : String) : Except String BundleRef :=
  match scanSegments bundleUrl.toList with
  | none => Except.error ("bundle url " ++ bundleUrl ++ " does not match regex")
  | some (storeId, platform, bundleId) =>
    Except.ok { bundleId := bundleId, platform := platform, storeId := storeId }

/-- The bundle-reference part of the `POST /symbolicate` handler: locate
the first frame file via `_.find` and run `extractSegmentsFromBundleUrl`
on it. -/
def symbolicateRouteRef (stack : List StackFrame) : Except String BundleRef :=
  match findFirstHttpFile stack with
  | Except.error e => Except.error e
  | Except.ok url => extractSegmentsFromBundleUrl url

/-- The `/\/$/` directory-entry test of `unzipAssets`: the entry name ends
with a path separator. -/
def isDirEntry (fileName : String) : Bool :=
  match fileName.toList.getLast? with
  | some c => decide (c = '/')
  | none => false

/-- The scanning loop of Node `path.posix.dirname`: walking indices from
the end down to 1, skip the trailing run of slashes, then return the
index of the next slash found after a non-slash character. -/
def dirnameLoop (cs : List Char) : Nat → Bool → Option Nat
  | 0, _ => none
  | i + 1, matchedSlash =>
    if cs.getD (i + 1) ' ' = '/' then
      if matchedSlash then dirnameLoop cs i matchedSlash else some (i + 1)
    else dirnameLoop cs i false

/-- Node `path.posix.dirname`, translated statement by statement. -/
def dirname (s : String) : String :=
  let cs := s.toList
  if cs.length = 0 then "."
  else
    let hasRoot := decide (cs.getD 0 ' ' = '/')
    match dirnameLoop cs (cs.length - 1) true with
    | none => if hasRoot then "/" else "."
    | some e => if hasRoot ∧ e = 1 then "//" else String.mk (cs.take e)

/-- The entry loop of `BundleStoreServer.unzipAssets`, over the sequence
of entry names the zip file yields (zip decoding and the byte streams are
the excluded I/O adapter): directory entries (name ending in `/`) are
skipped, and for every other entry `path.dirname` of its name is added to
the `newAssets` JavaScript `Set`; the result is `Array.from` of that set,
i.e. first-seen insertion order. -/
def unzipAssetsHashes (entries : List String) : List String :=
  entries.foldl
    (fun acc e =>
      if isDirEntry e then acc
      else if acc.contains (dirname e) then acc else acc ++ [dirname e])
    []

/-- First-seen-order deduplication of a list (the behaviour of collecting
into a JavaScript `Set` and converting back with `Array.from`). -/
def dedupKeepFirst (l : List String) : List String :=
  l.foldl (fun acc x => if acc.contains x then acc else acc ++ [x]) []

/-- The blob files named by a bundle list: membership characterization of
the blob directory contents for one namespace. -/
def filesCovered (files : List BlobPath) (σ : List Bundle) : Prop :=
  ∀ p, p ∈ files ↔ ∃ b ∈ σ, p = BlobPath.bundle b.id ∨ p = BlobPath.sourceMap b.sourceMap

/-- Invariant carried through a sequence of ingestions: the namespace
record holds exactly the bundle sequence `σ` and the blob directories
hold exactly the files of `σ`. -/
def StoreInv (st : ServerState) (storeId : String) (base : Store) (σ : List Bundle) : Prop :=
  objGet st.dbState.db.stores storeId = some { base with bundles := σ } ∧
  filesCovered st.files σ

/-- An empty metadata store (the constructor seed) with its persisted
document. -/
def emptyDbState : DbState :=
  { db := { assets := [], stores := [] }, disk := { assets := [], stores := [] } }

/-- Fixture: a freshly created namespace record. -/
def cexStore : Store :=
  { accessKey := "key0", bundles := [], id := "acme" }

/-- Fixture: a database holding only the namespace `acme`. -/
def cexDb : Db :=
  { assets := [], stores := [("acme", cexStore)] }

/-- Fixture: a metadata-store state holding only the namespace `acme`. -/
def cexDbState : DbState :=
  { db := cexDb, disk := cexDb }

/-- Fixture: server state with the namespace `acme` and no blob files. -/
def cexState : ServerState :=
  { dbState := cexDbState, files := [] }

/-- Fixture bundles with distinct identifiers and symbol maps. -/
def cexBundle : Bundle :=
  { id := "b1", platform := Platform.android, sourceMap := "m1", timestamp := 100 }

/-- Second fixture bundle. -/
def cexBundle2 : Bundle :=
  { id := "b2", platform := Platform.android, sourceMap := "m2", timestamp := 200 }

/-- Third fixture bundle, tagged for the other platform. -/
def cexBundleIos : Bundle :=
  { id := "b3", platform := Platform.ios, sourceMap := "m3", timestamp := 50 }

/-- Fixture symbol-map lookup: every generated position maps to the same
original position. -/
def cexConsumer : Int → Int → OriginalPosition :=
  fun _ _ => { source := some "src/App.js", line := some 42, column := some 7 }

/-- Fixture frame whose column number is `0` (falsy in JavaScript). -/
def cexFrameColZero : StackFrame :=
  { arguments := none, column := some 0,
    file := some "http://host/bundles/acme/android/latest/index.bundle",
    lineNumber := some 87771, methodName := "onPress" }

/-- Fixture frame carrying an HTTP bundle url with nonzero line/column. -/
def cexFrameHttp : StackFrame :=
  { arguments := none, column := some 24,
    file := some "http://host/bundles/acme/android/latest/index.bundle",
    lineNumber := some 87771, methodName := "onPress" }

/-- Fixture frame with no `file` field at all. -/
def cexFrameNoFile : StackFrame :=
  { arguments := none, column := some 1, file := none,
    lineNumber := some 1, methodName := "boot" }

/-- Fixture frame whose file does not start with `http`. -/
def cexFrameNative : StackFrame :=
  { arguments := none, column := some 3, file := some "native",
    lineNumber := some 9, methodName := "call" }

/-- Lemma: `List.contains` agrees with decidable membership on strings. -/
theorem contains_eq_decide_mem (l : List String) (x : String) :
    l.contains x = decide (x ∈ l) := by
  induction l with
  | nil => rfl
  | cons a l ih =>
    by_cases h : a = x
    · simp [h]
    · have h' : ¬x = a := fun hc => h hc.symm
      simp [List.contains_cons, ih, h, h']

/-- Reading back the key just assigned returns the assigned value. -/
theorem objGet_objSet_self (m : List (String × Store)) (k : String) (v : Store) :
    objGet (objSet m k v) k = some v := by
  induction m with
  | nil => simp [objSet, objGet]
  | cons p rest ih =>
    obtain ⟨k', v'⟩ := p
    by_cases h : k' = k
    · simp [objSet, objGet, h]
    · simp [objSet, objGet, h, ih]

/-- C5: for every input sequence of candidate hashes and every current
known-asset set, the `POST /assets/delta` computation leaves the state
untouched and returns exactly the subsequence of the candidates (order
preserved) whose hashes are not in the known-asset set. -/
theorem c5_compute_delta (s : DbState) (assets : List String) :
    (postAssetsDelta s assets).1 = s ∧
    List.Sublist (postAssetsDelta s assets).2 assets ∧
    (postAssetsDelta s assets).2 = assets.filter (fun x => decide (x ∉ s.db.assets)) := by
  refine ⟨rfl, List.filter_sublist _, ?_⟩
  show assets.filter _ = assets.filter _
  apply List.filter_congr
  intro x _
  rw [contains_eq_decide_mem]
  by_cases h : x ∈ s.db.assets <;> simp [h]

/-- C6: each mutating metadata-store operation that returns successfully
leaves the persisted document equal to the in-memory database (the whole
document is rewritten by `write()` before the call returns, so the file
bytes are `JSON.stringify` of the in-memory state). -/
theorem c6_write_through :
    (∀ s storeId key s' r, createStore s storeId key = (s', Except.ok r) →
      s'.disk = s'.db) ∧
    (∀ s storeId s' r, delStore s storeId = (s', Except.ok r) →
      s'.disk = s'.db) ∧
    (∀ s b storeId s' r, addBundle s b storeId = (s', Except.ok r) →
      s'.disk = s'.db) ∧
    (∀ s bundleId storeId s' r, delBundle s bundleId storeId = (s', Except.ok r) →
      s'.disk = s'.db) ∧
    (∀ s assets, (createAssets s assets).1.disk = (createAssets s assets).1.db) := by
  refine ⟨?_, ?_, ?_, ?_, ?_⟩
  · intro s storeId key s' r h
    unfold createStore at h
    by_cases hs : hasStore s.db storeId
    · rw [if_pos hs] at h
      exact absurd (congrArg Prod.snd h) (by simp)
    · rw [if_neg hs] at h
      have := congrArg Prod.fst h
      simp only at this
      rw [← this]
      rfl
  · intro s storeId s' r h
    unfold delStore at h
    cases hg : objGet s.db.stores storeId with
    | none =>
      rw [hg] at h
      exact absurd (congrArg Prod.snd h) (by simp)
    | some store =>
      rw [hg] at h
      have := congrArg Prod.fst h
      simp only at this
      rw [← this]
      rfl
  · intro s b storeId s' r h
    unfold addBundle at h
    cases hg : objGet s.db.stores storeId with
    | none =>
      rw [hg] at h
      exact absurd (congrArg Prod.snd h) (by simp)
    | some store =>
      rw [hg] at h
      have := congrArg Prod.fst h
      simp only at this
      rw [← this]
      rfl
  · intro s bundleId storeId s' r h
    unfold delBundle at h
    cases hg : objGet s.db.stores storeId with
    | none =>
      rw [hg] at h
      exact absurd (congrArg Prod.snd h) (by simp)
    | some store =>
      simp only [hg] at h
      cases hf : store.bundles.find? (fun b => decide (b.id = bundleId)) with
      | none =>
        simp only [hf] at h
        exact absurd (congrArg Prod.snd h) (by simp)
      | some bundle =>
        simp only [hf] at h
        have := congrArg Prod.fst h
        simp only at this
        rw [← this]
        rfl
  · intro s assets
    rfl

/-- C6 witness: creating a namespace in the empty store persists the
updated document. -/
theorem c6_witness :
    (createStore emptyDbState "acme" "key0").1.disk
      = (createStore emptyDbState "acme" "key0").1.db :=
  c6_write_through.1 emptyDbState "acme" "key0"
    (createStore emptyDbState "acme" "key0").1
    { accessKey := "key0", bundles := [], id := "acme" } rfl

/-- C9: each metadata-store operation that fails (absent namespace,
absent bundle, or duplicate namespace on creation) leaves the in-memory
database and the persisted document exactly as they were: the checks run
before any mutation or write. -/
theorem c9_fail_no_mutation :
    (∀ s storeId key s' e, createStore s storeId key = (s', Except.error e) →
      s' = s) ∧
    (∀ s storeId s' e, delStore s storeId = (s', Except.error e) → s' = s) ∧
    (∀ s b storeId s' e, addBundle s b storeId = (s', Except.error e) → s' = s) ∧
    (∀ s bundleId storeId s' e, delBundle s bundleId storeId = (s', Except.error e) →
      s' = s) := by
  refine ⟨?_, ?_, ?_, ?_⟩
  · intro s storeId key s' e h
    unfold createStore at h
    by_cases hs : hasStore s.db storeId
    · rw [if_pos hs] at h
      exact (congrArg Prod.fst h).symm
    · rw [if_neg hs] at h
      exact absurd (congrArg Prod.snd h) (by simp)
  · intro s storeId s' e h
    unfold delStore at h
    cases hg : objGet s.db.stores storeId with
    | none =>
      rw [hg] at h
      exact (congrArg Prod.fst h).symm
    | some store =>
      rw [hg] at h
      exact absurd (congrArg Prod.snd h) (by simp)
  · intro s b storeId s' e h
    unfold addBundle at h
    cases hg : objGet s.db.stores storeId with
    | none =>
      rw [hg] at h
      exact (congrArg Prod.fst h).symm
    | some store =>
      rw [hg] at h
      exact absurd (congrArg Prod.snd h) (by simp)
  · intro s bundleId storeId s' e h
    unfold delBundle at h
    cases hg : objGet s.db.stores storeId with
    | none =>
      rw [hg] at h
      exact (congrArg Prod.fst h).symm
    | some store =>
      simp only [hg] at h
      cases hf : store.bundles.find? (fun b => decide (b.id = bundleId)) with
      | none =>
        simp only [hf] at h
        exact (congrArg Prod.fst h).symm
      | some bundle =>
        simp only [hf] at h
        exact absurd (congrArg Prod.snd h) (by simp)

/-- C9 witness: recreating the existing namespace `acme` fails and leaves
the state unchanged. -/
theorem c9_witness :
    (createStore cexDbState "acme" "key1").1 = cexDbState :=
  c9_fail_no_mutation.1 cexDbState "acme" "key1"
    (createStore cexDbState "acme" "key1").1 (storeExistMsg "acme") rfl

/-- C2: `getLatestBundle` fails when the namespace is absent, fails when
no bundle of the requested platform exists, and otherwise returns the
last bundle of the namespace insertion-ordered sequence whose platform
tag matches — a characterization independent of the timestamps and of
any bundles of other platforms inserted later. -/
theorem c2_getLatestBundle_spec (db : Db) (p : Platform) (sid : String) :
    getLatestBundle db p sid =
      match objGet db.stores sid with
      | none => Except.error (storeNotExistMsg sid)
      | some store =>
        match (store.bundles.filter (fun b => decide (b.platform = p))).getLast? with
        | none => Except.error (noBundleMsg sid p)
        | some b => Except.ok b := by
  unfold getLatestBundle isStoreEmpty
  cases hg : objGet db.stores sid with
  | none => simp
  | some store =>
    simp only
    by_cases hnil : store.bundles = []
    · simp [hnil]
    · have hlen : ¬store.bundles.length = 0 := by
        simpa [List.length_eq_zero] using hnil
      simp only [if_neg hlen]
      by_cases hany : (store.bundles.any fun b => decide (b.platform = p)) = true
      · simp only [hany, Bool.not_true]
        obtain ⟨b, hb, hpb⟩ := List.any_eq_true.mp hany
        have hne : store.bundles.filter (fun b => decide (b.platform = p)) ≠ [] := by
          intro hcon
          exact List.filter_eq_nil_iff.mp hcon b hb hpb
        cases hl : (store.bundles.filter fun b => decide (b.platform = p)).getLast? with
        | none => exact absurd (List.getLast?_eq_none_iff.mp hl) hne
        | some b' => simp [hl]
      · have hany' : (store.bundles.any fun b => decide (b.platform = p)) = false := by
          simpa using hany
        have hfil : store.bundles.filter (fun b => decide (b.platform = p)) = [] := by
          apply List.filter_eq_nil_iff.mpr
          intro b hb hpb
          rw [List.any_eq_false] at hany'
          exact hany' b hb hpb
        simp [hany', hfil]

/-- C4: `symbolicate` preserves the length and order of the stack, and
any frame lacking a file reference that starts with `http`, or lacking a
line number, or lacking a column number, passes through completely
unmodified at its original position. -/
theorem c4_symbolicate_noop (consumer : Int → Int → OriginalPosition)
    (stack : List StackFrame) :
    (symbolicate consumer stack).length = stack.length ∧
    ∀ (i : Nat) (frame : StackFrame), stack[i]? = some frame →
      (frame.file = none ∨
        (∀ u, frame.file = some u → jsStartsWith u "http" = false) ∨
        frame.lineNumber = none ∨ frame.column = none) →
      (symbolicate consumer stack)[i]? = some frame := by
  constructor
  · simp [symbolicate]
  · intro i frame hi hcond
    unfold symbolicate
    rw [List.getElem?_map, hi]
    simp only [Option.map_some']
    have hframe : symbolicateFrame consumer frame = frame := by
      unfold symbolicateFrame
      rcases hcond with h | h | h | h
      · simp [h]
      · cases hf : frame.file with
        | none => simp [hf]
        | some u => simp [hf, h u hf]
      · simp [h, jsTruthyNum]
      · simp [h, jsTruthyNum]
    rw [hframe]

/-- C4 witness: a frame with no file reference is returned unchanged at
position 0. -/
theorem c4_witness :
    (symbolicate cexConsumer [cexFrameNoFile])[0]? = some cexFrameNoFile :=
  (c4_symbolicate_noop cexConsumer [cexFrameNoFile]).2 0 cexFrameNoFile rfl
    (Or.inl rfl)

/-- C3 counterexample: a frame with an HTTP file reference, a line number
and a column number — the column number being `0`, which is falsy in
JavaScript — is NOT rewritten by `symbolicate`, although the symbol map
lookup would have produced a different original position. -/
theorem c3_counterexample :
    symbolicate cexConsumer [cexFrameColZero] = [cexFrameColZero] ∧
    cexFrameColZero.file ≠ (cexConsumer 87771 0).source ∧
    cexFrameColZero.column = some 0 := by
  refine ⟨rfl, by decide, rfl⟩

/-- C3 (amended): for every frame with a file reference starting with
`http` and a truthy (present and nonzero) line number and column number,
`symbolicate` replaces the frame, at its original position, with one
whose file, line and column come from the symbol-map lookup at
(line, column), while the method name and arguments are carried over
unchanged from the input frame. -/
theorem c3_symbolicate_frame (consumer : Int → Int → OriginalPosition)
    (stack : List StackFrame) (i : Nat) (frame : StackFrame) (u : String)
    (l c : Int)
    (hi : stack[i]? = some frame)
    (hf : frame.file = some u) (hhttp : jsStartsWith u "http" = true)
    (hl : frame.lineNumber = some l) (hl0 : l ≠ 0)
    (hc : frame.column = some c) (hc0 : c ≠ 0) :
    (symbolicate consumer stack)[i]? =
      some { arguments := frame.arguments,
             column := (consumer l c).column,
             file := (consumer l c).source,
             lineNumber := (consumer l c).line,
             methodName := frame.methodName } := by
  unfold symbolicate
  rw [List.getElem?_map, hi]
  simp only [Option.map_some']
  unfold symbolicateFrame
  rw [hf, hl, hc]
  simp [jsTruthyNum, hhttp, hl0, hc0]

/-- C3 witness: the spec scenario frame (`lineNumber` 87771, `column` 24,
method `onPress`) is rewritten to the looked-up original position with
the method name preserved. -/
theorem c3_witness :
    (symbolicate cexConsumer [cexFrameHttp])[0]? =
      some { arguments := none, column := some 7, file := some "src/App.js",
             lineNumber := some 42, methodName := "onPress" } :=
  c3_symbolicate_frame cexConsumer [cexFrameHttp] 0 cexFrameHttp
    "http://host/bundles/acme/android/latest/index.bundle" 87771 24 rfl rfl
    (by decide) rfl (by decide) rfl (by decide)

/-- The entry fold with an explicit accumulator agrees with the
deduplicating fold over the mapped, filtered entry names. -/
theorem unzip_foldl_general (entries : List String) (acc : List String) :
    entries.foldl
        (fun acc e =>
          if isDirEntry e then acc
          else if acc.contains (dirname e) then acc else acc ++ [dirname e])
        acc
      = ((entries.filter (fun e => !isDirEntry e)).map dirname).foldl
          (fun acc x => if acc.contains x then acc else acc ++ [x]) acc := by
  induction entries generalizing acc with
  | nil => rfl
  | cons e rest ih =>
    by_cases hd : isDirEntry e = true
    · rw [List.foldl_cons, if_pos hd, List.filter_cons]
      rw [show (!isDirEntry e) = false by rw [hd]; rfl]
      rw [if_neg Bool.false_ne_true]
      exact ih acc
    · have hfd : isDirEntry e = false := by
        revert hd
        cases isDirEntry e <;> simp
      rw [List.foldl_cons, if_neg hd, List.filter_cons]
      rw [show (!isDirEntry e) = true by rw [hfd]; rfl]
      rw [if_pos rfl, List.map_cons, List.foldl_cons]
      exact ih _

/-- C8 counterexample: for the single non-directory entry
`h1/sub/f.png`, whose top-level directory name is `h1`, the ingestion
returns the immediate parent directory path `h1/sub`, not `h1`. -/
theorem c8_counterexample :
    unzipAssetsHashes ["h1/sub/f.png"] = ["h1/sub"] ∧
    ("h1/sub" : String) ≠ "h1" := by
  exact ⟨rfl, by decide⟩

/-- C8 (amended): asset ingestion skips directory entries (names ending
in a path separator) and returns the immediate parent directory paths
(`path.dirname`) of the non-directory entries, deduplicated, in
first-seen order. -/
theorem c8_unzip_assets_hashes (entries : List String) :
    unzipAssetsHashes entries
      = dedupKeepFirst ((entries.filter (fun e => !isDirEntry e)).map dirname) :=
  unzip_foldl_general entries []

/-- A frame whose file is present but does not start with `http` is
skipped by the `_.find` scan. -/
theorem findFirstHttpFile_cons_skip (g : StackFrame) (L : List StackFrame)
    (v : String) (hgv : g.file = some v) (hv : jsStartsWith v "http" = false) :
    findFirstHttpFile (g :: L) = findFirstHttpFile L := by
  simp [findFirstHttpFile, hgv, hv]

/-- The route-level reference extraction also skips such a frame. -/
theorem symbolicateRouteRef_cons_skip (g : StackFrame) (L : List StackFrame)
    (v : String) (hgv : g.file = some v) (hv : jsStartsWith v "http" = false) :
    symbolicateRouteRef (g :: L) = symbolicateRouteRef L := by
  unfold symbolicateRouteRef
  rw [findFirstHttpFile_cons_skip g L v hgv hv]

/-- C7 counterexample: in a stack whose first frame has no `file` field
and whose second frame carries an HTTP bundle url, the handler does not
select the HTTP frame — the `_.find` predicate throws a `TypeError` on
the file-less frame — although extracting from the HTTP frame's url
would have succeeded. -/
theorem c7_counterexample :
    symbolicateRouteRef [cexFrameNoFile, cexFrameHttp]
        = Except.error "TypeError: cannot read startsWith of undefined" ∧
    cexFrameHttp.file = some "http://host/bundles/acme/android/latest/index.bundle" ∧
    extractSegmentsFromBundleUrl "http://host/bundles/acme/android/latest/index.bundle"
        = Except.ok { bundleId := "latest", platform := "android", storeId := "acme" } := by
  exact ⟨rfl, rfl, rfl⟩

/-- C7 (amended): provided every frame before the first frame whose file
starts with `http` has a file reference, the symbolication flow extracts
the bundle reference from that first matching frame's url; and when every
frame has a file reference and none starts with `http`, the flow fails
with an error (the failure the specification calls
`MissingBundleReference`). -/
theorem c7_first_http_frame :
    (∀ (pre : List StackFrame) (f : StackFrame) (rest : List StackFrame) (u : String),
      (∀ g ∈ pre, ∃ v, g.file = some v ∧ jsStartsWith v "http" = false) →
      f.file = some u → jsStartsWith u "http" = true →
      symbolicateRouteRef (pre ++ f :: rest) = extractSegmentsFromBundleUrl u) ∧
    (∀ stack : List StackFrame,
      (∀ g ∈ stack, ∃ v, g.file = some v ∧ jsStartsWith v "http" = false) →
      ∃ e, symbolicateRouteRef stack = Except.error e) := by
  constructor
  · intro pre
    induction pre with
    | nil =>
      intro f rest u _ hf hhttp
      simp [symbolicateRouteRef, findFirstHttpFile, hf, hhttp]
    | cons g pre ih =>
      intro f rest u hpre hf hhttp
      obtain ⟨v, hgv, hv⟩ := hpre g (List.mem_cons_self g pre)
      rw [List.cons_append, symbolicateRouteRef_cons_skip g _ v hgv hv]
      exact ih f rest u (fun g' hg' => hpre g' (List.mem_cons_of_mem g hg')) hf hhttp
  · intro stack
    induction stack with
    | nil => exact fun _ => ⟨"TypeError: cannot read file of undefined", rfl⟩
    | cons g stack ih =>
      intro hstack
      obtain ⟨v, hgv, hv⟩ := hstack g (List.mem_cons_self g stack)
      rw [symbolicateRouteRef_cons_skip g stack v hgv hv]
      exact ih (fun g' hg' => hstack g' (List.mem_cons_of_mem g hg'))

/-- A single ingestion that does not trigger eviction: the new bundle is
appended to the store record and its two blob files are written. -/
theorem ingestBundle_no_evict (N : Int) (st : ServerState) (storeId : String)
    (store : Store) (b : Bundle)
    (hget : objGet st.dbState.db.stores storeId = some store)
    (hcond : ¬(N ≠ -1 ∧ N ≤ (store.bundles.length : Int))) :
    ∃ st', ingestBundle N st storeId b = Except.ok st' ∧
      st'.dbState.db.stores
        = objSet st.dbState.db.stores storeId
            { store with bundles := store.bundles ++ [b] } ∧
      st'.files = st.files ++ [getPathToBundle b.id, getPathToSourceMap b.sourceMap] := by
  refine
    ⟨{ dbState :=
        { db := { st.dbState.db with
            stores := objSet st.dbState.db.stores storeId
              { store with bundles := store.bundles ++ [b] } },
          disk := { st.dbState.db with
            stores := objSet st.dbState.db.stores storeId
              { store with bundles := store.bundles ++ [b] } } },
       files := st.files ++ [getPathToBundle b.id, getPathToSourceMap b.sourceMap] },
     ?_, rfl, rfl⟩
  unfold ingestBundle addBundleToStore addBundle
  simp only [hget, if_neg hcond]
  rfl

/-- A single ingestion that triggers eviction: the files of the bundle at
index 0 are removed, its record is deleted, and the new bundle is
appended with its two blob files written (the new files are written by
multer before the removal runs). -/
theorem ingestBundle_evict (N : Int) (st : ServerState) (storeId : String)
    (store : Store) (h : Bundle) (t : List Bundle) (b : Bundle)
    (hget : objGet st.dbState.db.stores storeId = some store)
    (hbundles : store.bundles = h :: t)
    (hcond : N ≠ -1 ∧ N ≤ (store.bundles.length : Int))
    (htids : ∀ x ∈ t, x.id ≠ h.id) :
    ∃ st', ingestBundle N st storeId b = Except.ok st' ∧
      st'.dbState.db.stores
        = objSet (objSet st.dbState.db.stores storeId { store with bundles := t })
            storeId { store with bundles := t ++ [b] } ∧
      st'.files = shellRm
          (st.files ++ [getPathToBundle b.id, getPathToSourceMap b.sourceMap])
          (getPathToBundle h.id) (getPathToSourceMap h.sourceMap) := by
  obtain ⟨ak, bls, idf⟩ := store
  replace hbundles : bls = h :: t := hbundles
  subst hbundles
  have hfind : (h :: t).find? (fun x => decide (x.id = h.id)) = some h := by
    simp [List.find?_cons]
  have hfil : (h :: t).filter (fun x => !decide (x.id = h.id)) = t := by
    rw [List.filter_cons]
    have hhead : (!decide (h.id = h.id)) = false := by simp
    rw [hhead, if_neg Bool.false_ne_true]
    apply List.filter_eq_self.mpr
    intro x hx
    simp [htids x hx]
  refine
    ⟨{ dbState :=
        { db := { st.dbState.db with
            stores := objSet
              (objSet st.dbState.db.stores storeId { accessKey := ak, bundles := t, id := idf })
              storeId { accessKey := ak, bundles := t ++ [b], id := idf } },
          disk := { st.dbState.db with
            stores := objSet
              (objSet st.dbState.db.stores storeId { accessKey := ak, bundles := t, id := idf })
              storeId { accessKey := ak, bundles := t ++ [b], id := idf } } },
       files := shellRm
         (st.files ++ [getPathToBundle b.id, getPathToSourceMap b.sourceMap])
         (getPathToBundle h.id) (getPathToSourceMap h.sourceMap) },
     ?_, rfl, rfl⟩
  unfold ingestBundle addBundleToStore delBundle addBundle DbState.write
  simp only [hget]
  rw [if_pos hcond]
  simp only [hfind, hfil, objGet_objSet_self]

/-- Unfolding a successful ingestion from the head of a request
sequence. -/
theorem ingestAll_cons_ok (m : Int) (sid : String) (st st1 : ServerState)
    (b : Bundle) (rest : List Bundle)
    (hok : ingestBundle m st sid b = Except.ok st1) :
    ingestAll m sid st (b :: rest) = ingestAll m sid st1 rest := by
  conv_lhs => rw [ingestAll]
  rw [hok]

/-- Invariant preservation over a whole ingestion sequence with a
positive retention limit `N`: the namespace record holds the suffix of
the combined sequence of length at most `N`, and the blob directories
hold exactly the files of the surviving bundles. -/
theorem ingestAll_inv (N : Nat) (storeId : String) (base : Store) :
    ∀ (l : List Bundle) (st : ServerState) (σ : List Bundle),
      1 ≤ N →
      StoreInv st storeId base σ →
      σ.length ≤ N →
      ((σ ++ l).map Bundle.id).Nodup →
      ((σ ++ l).map Bundle.sourceMap).Nodup →
      ∃ st', ingestAll (N : Int) storeId st l = Except.ok st' ∧
        StoreInv st' storeId base ((σ ++ l).drop (σ.length + l.length - N)) := by
  intro l
  induction l with
  | nil =>
    intro st σ hN hInv hle _ _
    refine ⟨st, rfl, ?_⟩
    have hz : σ.length + ([] : List Bundle).length - N = 0 := by
      simp only [List.length_nil, Nat.add_zero]
      omega
    rw [hz, List.append_nil, List.drop_zero]
    exact hInv
  | cons b rest ih =>
    intro st σ hN hInv hle hids hsm
    obtain ⟨hget, hcov⟩ := hInv
    by_cases hlt : σ.length < N
    · have hcond : ¬((N : Int) ≠ -1 ∧ (N : Int) ≤ (σ.length : Int)) := by
        intro hc
        have h2 := hc.2
        omega
      obtain ⟨st1, heq1, hstores1, hfiles1⟩ :=
        ingestBundle_no_evict (N : Int) st storeId { base with bundles := σ } b hget hcond
      have hInv1 : StoreInv st1 storeId base (σ ++ [b]) := by
        constructor
        · rw [hstores1]
          exact objGet_objSet_self st.dbState.db.stores storeId _
        · intro p
          rw [hfiles1, List.mem_append]
          constructor
          · rintro (hp | hp)
            · obtain ⟨x, hx, hpx⟩ := (hcov p).mp hp
              exact ⟨x, List.mem_append_left _ hx, hpx⟩
            · have hp' : p = getPathToBundle b.id ∨ p = getPathToSourceMap b.sourceMap := by
                simpa using hp
              refine ⟨b, List.mem_append_right _ (by simp), ?_⟩
              rcases hp' with hp' | hp'
              · exact Or.inl hp'
              · exact Or.inr hp'
          · rintro ⟨x, hx, hpx⟩
            rcases List.mem_append.mp hx with hxσ | hxb
            · exact Or.inl ((hcov p).mpr ⟨x, hxσ, hpx⟩)
            · have hxb' : x = b := by simpa using hxb
              subst hxb'
              right
              rcases hpx with hp | hp
              · simp [getPathToBundle, hp]
              · simp [getPathToSourceMap, hp]
      have hle1 : (σ ++ [b]).length ≤ N := by
        simp only [List.length_append, List.length_cons, List.length_nil]
        omega
      have hids1 : (((σ ++ [b]) ++ rest).map Bundle.id).Nodup := by
        rw [List.append_assoc, List.singleton_append]
        exact hids
      have hsm1 : (((σ ++ [b]) ++ rest).map Bundle.sourceMap).Nodup := by
        rw [List.append_assoc, List.singleton_append]
        exact hsm
      obtain ⟨st', heq2, hInv2⟩ := ih st1 (σ ++ [b]) hN hInv1 hle1 hids1 hsm1
      refine ⟨st', ?_, ?_⟩
      · rw [ingestAll_cons_ok (N : Int) storeId st st1 b rest heq1]
        exact heq2
      · have e1 : (σ ++ [b]) ++ rest = σ ++ b :: rest := by
          rw [List.append_assoc, List.singleton_append]
        have e2 : (σ ++ [b]).length + rest.length - N
            = σ.length + (b :: rest).length - N := by
          simp only [List.length_append, List.length_cons, List.length_nil]
          omega
        rw [e1, e2] at hInv2
        exact hInv2
    · have heqN : σ.length = N := by omega
      cases σ with
      | nil =>
        exfalso
        simp only [List.length_nil] at heqN
        omega
      | cons h t =>
        have hlen' : t.length + 1 = N := by
          simpa using heqN
        have hids2 : (h.id :: ((t ++ b :: rest).map Bundle.id)).Nodup := hids
        obtain ⟨hidnm, hidtl⟩ := List.nodup_cons.mp hids2
        have hsm2 : (h.sourceMap :: ((t ++ b :: rest).map Bundle.sourceMap)).Nodup := hsm
        obtain ⟨hsmnm, hsmtl⟩ := List.nodup_cons.mp hsm2
        have htids : ∀ x ∈ t, x.id ≠ h.id := by
          intro x hx hxe
          apply hidnm
          rw [← hxe]
          exact List.mem_map_of_mem _ (List.mem_append_left _ hx)
        have htsm : ∀ x ∈ t, x.sourceMap ≠ h.sourceMap := by
          intro x hx hxe
          apply hsmnm
          rw [← hxe]
          exact List.mem_map_of_mem _ (List.mem_append_left _ hx)
        have hbid : b.id ≠ h.id := by
          intro hbe
          apply hidnm
          rw [← hbe]
          exact List.mem_map_of_mem _ (List.mem_append_right _ (List.mem_cons_self b rest))
        have hbsm : b.sourceMap ≠ h.sourceMap := by
          intro hbe
          apply hsmnm
          rw [← hbe]
          exact List.mem_map_of_mem _ (List.mem_append_right _ (List.mem_cons_self b rest))
        have hcond : (N : Int) ≠ -1 ∧ (N : Int) ≤ (((h :: t).length : Nat) : Int) := by
          constructor
          · omega
          · have : (h :: t).length = N := heqN
            omega
        obtain ⟨st1, heq1, hstores1, hfiles1⟩ :=
          ingestBundle_evict (N : Int) st storeId { base with bundles := h :: t } h t b
            hget rfl hcond htids
        have hInv1 : StoreInv st1 storeId base (t ++ [b]) := by
          constructor
          · rw [hstores1]
            exact objGet_objSet_self _ storeId _
          · intro p
            rw [hfiles1]
            unfold shellRm
            rw [List.mem_filter]
            constructor
            · rintro ⟨hp, hq⟩
              simp only [Bool.not_eq_true', Bool.or_eq_false_iff, decide_eq_false_iff_not] at hq
              obtain ⟨hq1, hq2⟩ := hq
              rcases List.mem_append.mp hp with hpf | hpb
              · obtain ⟨x, hx, hpx⟩ := (hcov p).mp hpf
                rcases List.mem_cons.mp hx with hxh | hxt
                · subst hxh
                  rcases hpx with hp' | hp'
                  · exact absurd hp' hq1
                  · exact absurd hp' hq2
                · exact ⟨x, List.mem_append_left _ hxt, hpx⟩
              · have hpb' : p = getPathToBundle b.id ∨ p = getPathToSourceMap b.sourceMap := by
                  simpa using hpb
                refine ⟨b, List.mem_append_right _ (by simp), ?_⟩
                rcases hpb' with hp' | hp'
                · exact Or.inl hp'
                · exact Or.inr hp'
            · rintro ⟨x, hx, hpx⟩
              rcases List.mem_append.mp hx with hxt | hxb
              · refine ⟨List.mem_append_left _
                  ((hcov p).mpr ⟨x, List.mem_cons_of_mem h hxt, hpx⟩), ?_⟩
                rcases hpx with hp' | hp' <;> subst hp' <;>
                  simp [getPathToBundle, getPathToSourceMap, htids x hxt, htsm x hxt]
              · have hxb' : x = b := by simpa using hxb
                subst hxb'
                refine ⟨List.mem_append_right _ ?_, ?_⟩
                · rcases hpx with hp' | hp' <;> simp [hp', getPathToBundle, getPathToSourceMap]
                · rcases hpx with hp' | hp' <;> subst hp' <;>
                    simp [getPathToBundle, getPathToSourceMap, hbid, hbsm]
        have hle1 : (t ++ [b]).length ≤ N := by
          simp only [List.length_append, List.length_cons, List.length_nil]
          omega
        have hids1 : (((t ++ [b]) ++ rest).map Bundle.id).Nodup := by
          rw [List.append_assoc, List.singleton_append]
          exact hidtl
        have hsm1 : (((t ++ [b]) ++ rest).map Bundle.sourceMap).Nodup := by
          rw [List.append_assoc, List.singleton_append]
          exact hsmtl
        obtain ⟨st', heq2, hInv2⟩ := ih st1 (t ++ [b]) hN hInv1 hle1 hids1 hsm1
        refine ⟨st', ?_, ?_⟩
        · rw [ingestAll_cons_ok (N : Int) storeId st st1 b rest heq1]
          exact heq2
        · have e1 : (t ++ [b]) ++ rest = t ++ b :: rest := by
            rw [List.append_assoc, List.singleton_append]
          have e2 : (t ++ [b]).length + rest.length - N = rest.length := by
            simp only [List.length_append, List.length_cons, List.length_nil]
            omega
          rw [e1, e2] at hInv2
          have e3 : (h :: t) ++ b :: rest = h :: (t ++ b :: rest) := rfl
          have e4 : (h :: t).length + (b :: rest).length - N = rest.length + 1 := by
            simp only [List.length_cons]
            omega
          rw [e3, e4, List.drop_succ_cons]
          exact hInv2

/-- C1 counterexample: with a configured retention limit `maxBundles = 0`
(the case `N = 0` of the claim), the normalization maps `0` — falsy in
JavaScript — to `-1`, so no eviction ever happens: one ingestion into an
empty namespace leaves `1` bundle, not `0`. -/
theorem c1_counterexample :
    normalizeMaxBundles (some 0) = -1 ∧
    (ingestAll (normalizeMaxBundles (some 0)) "acme" cexState [cexBundle]).toOption.map
        (fun st => (objGet st.dbState.db.stores "acme").map (fun s => s.bundles.length))
      = some (some 1) ∧
    (1 : Nat) ≠ 0 := by
  refine ⟨rfl, rfl, by decide⟩

/-- C1 (amended): for a retention limit `N ≥ 1` (the normalization keeps
such values), after ingesting more than `N` bundles with fresh
identifiers into an initially empty namespace, exactly `N` bundles
remain: the `N` most recently ingested ones in their original relative
order (eviction always removes index 0 of the sequence, regardless of
platform); every evicted bundle's blob and symbol-map files no longer
exist, while the surviving bundles' files do. -/
theorem c1_eviction_retention (N : Nat) (storeId : String) (base : Store)
    (st0 : ServerState) (l : List Bundle)
    (hN : 1 ≤ N)
    (hstore : objGet st0.dbState.db.stores storeId
      = some { base with bundles := ([] : List Bundle) })
    (hfiles : st0.files = [])
    (hlen : N < l.length)
    (hids : (l.map Bundle.id).Nodup)
    (hsm : (l.map Bundle.sourceMap).Nodup) :
    normalizeMaxBundles (some (N : Int)) = (N : Int) ∧
    ∃ st', ingestAll (N : Int) storeId st0 l = Except.ok st' ∧
      objGet st'.dbState.db.stores storeId
        = some { base with bundles := l.drop (l.length - N) } ∧
      (l.drop (l.length - N)).length = N ∧
      (∀ b ∈ l.take (l.length - N),
        BlobPath.bundle b.id ∉ st'.files ∧ BlobPath.sourceMap b.sourceMap ∉ st'.files) ∧
      (∀ b ∈ l.drop (l.length - N),
        BlobPath.bundle b.id ∈ st'.files ∧ BlobPath.sourceMap b.sourceMap ∈ st'.files) := by
  constructor
  · show (if (N : Int) = 0 then -1 else (N : Int)) = (N : Int)
    rw [if_neg (by omega : ¬((N : Int) = 0))]
  · have hInv0 : StoreInv st0 storeId base [] := by
      constructor
      · exact hstore
      · intro p
        rw [hfiles]
        simp
    obtain ⟨st', heq, hInv⟩ := ingestAll_inv N storeId base l st0 [] hN hInv0 (by simp)
      (by simpa using hids) (by simpa using hsm)
    simp only [List.nil_append, List.length_nil, Nat.zero_add] at hInv
    obtain ⟨hgets, hcov⟩ := hInv
    have hsplit : l = l.take (l.length - N) ++ l.drop (l.length - N) :=
      (List.take_append_drop _ l).symm
    refine ⟨st', heq, hgets, ?_, ?_, ?_⟩
    · rw [List.length_drop]
      omega
    · intro b hb
      constructor
      · intro hmem
        obtain ⟨x, hx, hpx⟩ := (hcov _).mp hmem
        rcases hpx with hp | hp
        · have hbid : b.id = x.id := by simpa using hp
          have hnd := hids
          rw [hsplit, List.map_append] at hnd
          have hdisj := (List.nodup_append.mp hnd).2.2
          have m2 : x.id ∈ (l.drop (l.length - N)).map Bundle.id :=
            List.mem_map_of_mem _ hx
          rw [← hbid] at m2
          exact hdisj (List.mem_map_of_mem _ hb) m2
        · exact absurd hp (by simp)
      · intro hmem
        obtain ⟨x, hx, hpx⟩ := (hcov _).mp hmem
        rcases hpx with hp | hp
        · exact absurd hp (by simp)
        · have hbsm : b.sourceMap = x.sourceMap := by simpa using hp
          have hnd := hsm
          rw [hsplit, List.map_append] at hnd
          have hdisj := (List.nodup_append.mp hnd).2.2
          have m2 : x.sourceMap ∈ (l.drop (l.length - N)).map Bundle.sourceMap :=
            List.mem_map_of_mem _ hx
          rw [← hbsm] at m2
          exact hdisj (List.mem_map_of_mem _ hb) m2
    · intro b hb
      exact ⟨(hcov _).mpr ⟨b, hb, Or.inl rfl⟩, (hcov _).mpr ⟨b, hb, Or.inr rfl⟩⟩

/-- C1 witness: with `N = 1`, ingesting two bundles into the fresh
namespace `acme` leaves exactly the second bundle and removes the first
one's files. -/
theorem c1_witness :
    normalizeMaxBundles (some ((1 : Nat) : Int)) = ((1 : Nat) : Int) ∧
    ∃ st', ingestAll ((1 : Nat) : Int) "acme" cexState [cexBundle, cexBundle2]
        = Except.ok st' ∧
      objGet st'.dbState.db.stores "acme"
        = some { cexStore with
            bundles := [cexBundle, cexBundle2].drop ([cexBundle, cexBundle2].length - 1) } ∧
      ([cexBundle, cexBundle2].drop ([cexBundle, cexBundle2].length - 1)).length = 1 ∧
      (∀ b ∈ [cexBundle, cexBundle2].take ([cexBundle, cexBundle2].length - 1),
        BlobPath.bundle b.id ∉ st'.files ∧ BlobPath.sourceMap b.sourceMap ∉ st'.files) ∧
      (∀ b ∈ [cexBundle, cexBundle2].drop ([cexBundle, cexBundle2].length - 1),
        BlobPath.bundle b.id ∈ st'.files ∧ BlobPath.sourceMap b.sourceMap ∈ st'.files) :=
  c1_eviction_retention 1 "acme" cexStore cexState [cexBundle, cexBundle2]
    (by decide) rfl rfl (by decide) (by decide) (by decide)

/-- C10: a user-configured `maxBundles` of `0` (or an absent value) is
normalized to `-1`, and with `maxBundles = -1` the eviction branch never
runs: every ingestion sequence simply appends to the namespace's bundle
sequence, which therefore grows without bound. -/
theorem c10_no_eviction_unbounded :
    normalizeMaxBundles (some 0) = -1 ∧
    normalizeMaxBundles none = -1 ∧
    (∀ (st : ServerState) (storeId : String) (store : Store) (l : List Bundle),
      objGet st.dbState.db.stores storeId = some store →
      ∃ st', ingestAll (-1) storeId st l = Except.ok st' ∧
        objGet st'.dbState.db.stores storeId
          = some { store with bundles := store.bundles ++ l }) := by
  refine ⟨rfl, rfl, ?_⟩
  intro st storeId store l
  induction l generalizing st store with
  | nil =>
    intro hget
    refine ⟨st, rfl, ?_⟩
    rw [List.append_nil]
    exact hget
  | cons b rest ih =>
    intro hget
    have hcond : ¬((-1 : Int) ≠ -1 ∧ (-1 : Int) ≤ (store.bundles.length : Int)) := by
      intro hc
      exact hc.1 rfl
    obtain ⟨st1, heq1, hstores1, _⟩ := ingestBundle_no_evict (-1) st storeId store b hget hcond
    have hget1 : objGet st1.dbState.db.stores storeId
        = some { store with bundles := store.bundles ++ [b] } := by
      rw [hstores1]
      exact objGet_objSet_self _ _ _
    obtain ⟨st', heq2, hres⟩ := ih st1 _ hget1
    refine ⟨st', ?_, ?_⟩
    · rw [ingestAll_cons_ok (-1) storeId st st1 b rest heq1]
      exact heq2
    · have e : (store.bundles ++ [b]) ++ rest = store.bundles ++ b :: rest := by
        rw [List.append_assoc, List.singleton_append]
      rw [e] at hres
      exact hres

/-- C10 witness: one ingestion with the normalized `-1` limit appends to
the `acme` namespace. -/
theorem c10_witness :
    ∃ st', ingestAll (-1) "acme" cexState [cexBundle] = Except.ok st' ∧
      objGet st'.dbState.db.stores "acme"
        = some { cexStore with bundles := cexStore.bundles ++ [cexBundle] } :=
  c10_no_eviction_unbounded.2.2 cexState "acme" cexStore [cexBundle] rfl

/-- C7 witness: a native (non-http) frame is skipped and the bundle
reference is extracted from the next frame's HTTP url; and a stack of a
single native frame makes the flow fail. -/
theorem c7_witness :
    symbolicateRouteRef [cexFrameNative, cexFrameHttp]
        = extractSegmentsFromBundleUrl "http://host/bundles/acme/android/latest/index.bundle" ∧
    ∃ e, symbolicateRouteRef [cexFrameNative] = Except.error e := by
  constructor
  · exact c7_first_http_frame.1 [cexFrameNative] cexFrameHttp []
      "http://host/bundles/acme/android/latest/index.bundle"
      (by
        intro g hg
        simp only [List.mem_singleton] at hg
        subst hg
        exact ⟨"native", rfl, by decide⟩)
      rfl (by decide)
  · exact c7_first_http_frame.2 [cexFrameNative]
      (by
        intro g hg
        simp only [List.mem_singleton] at hg
        subst hg
        exact ⟨"native", rfl, by decide⟩)

end BundleStore
